import Mathlib

/-!
Verification of the browser-side rendering harness for Conway's Game of Life
(`src/www/index.js`, and the FPS-counter-free variant `src/unnamed/part_000`).

The script is modelled shallowly:

* The arithmetic helpers (`getIndex`, `bitIsSet`) and the per-cell colour
  choice of `drawCells` are translated directly as functions over `Nat`,
  with the bit-packed `Uint8Array` modelled as a `List Nat` of byte values
  (a JavaScript out-of-bounds read yields `undefined`, which bitwise-ANDs
  to `0`; `List.getD _ _ 0` reproduces that).
* The event-driven part is a state machine.  The state records the script's
  `animationId` variable, the browser's pending animation-frame callback,
  the next frame id the browser will hand out, the play-pause button text,
  and the FPS counter's fields (`frames`, `lastFrameTimeStamp`).  Event
  handlers return the new state together with a trace of the externally
  visible operations they perform (universe calls, drawing calls, frame
  requests, DOM text updates).  Floating-point quantities (timestamps and
  scale-corrected click coordinates) are modelled as rationals.
-/

namespace WasmGol

/-- `const CELL_SIZE = 5;` (px). -/
def CELL_SIZE : ℕ := 5

/-- `const DEAD_COLOR = "#FFFFFF";` -/
def DEAD_COLOR : String := "#FFFFFF"

/-- `const ALIVE_COLOR = "#000000";` -/
def ALIVE_COLOR : String := "#000000"

/-- `const getIndex = (row, column) => row * width + column;` -/
def getIndex (width row column : ℕ) : ℕ :=
  row * width + column

/-- The byte index `Math.floor(n / 8)` that `bitIsSet` reads. -/
def byteOf (n : ℕ) : ℕ := n / 8

/-- `const bitIsSet = (n, arr) => { const byte = Math.floor(n / 8);
const mask = 1 << (n % 8); return (arr[byte] & mask) === mask; };`
An out-of-bounds `arr[byte]` is `undefined`, and `undefined & mask` is `0`. -/
def bitIsSet (n : ℕ) (arr : List ℕ) : Bool :=
  let mask := 1 <<< (n % 8)
  (arr.getD (byteOf n) 0 &&& mask) == mask

/-- The length of the `Uint8Array` that `drawCells` constructs over the
cells buffer.  The JavaScript expression `width * height / 8` is exact
division, but the typed-array constructor passes it through `ToIndex`,
which truncates fractional values, so the constructed array has
`⌊width * height / 8⌋` elements (`Nat` division). -/
def cellsLen (width height : ℕ) : ℕ :=
  width * height / 8

/-- The per-cell fills performed by `drawCells`: for each `row < height`
(outer loop) and `col < width` (inner loop), one rectangle is filled with
`ALIVE_COLOR` when `bitIsSet(getIndex(row, col), cells)` and with
`DEAD_COLOR` otherwise. -/
def drawCellsFills (width height : ℕ) (arr : List ℕ) : List ((ℕ × ℕ) × String) :=
  (List.range height).flatMap fun row =>
    (List.range width).map fun col =>
      ((row, col),
        if bitIsSet (getIndex width row col) arr then ALIVE_COLOR else DEAD_COLOR)

theorem bitIsSet_iff_testBit (n : ℕ) (arr : List ℕ) :
    bitIsSet n arr = true ↔ (arr.getD (byteOf n) 0).testBit (n % 8) := by
  unfold bitIsSet
  rw [Nat.one_shiftLeft, beq_iff_eq, Nat.and_two_pow]
  cases h : (arr.getD (byteOf n) 0).testBit (n % 8) <;> simp [h]
  positivity

theorem mem_drawCellsFills (width height : ℕ) (arr : List ℕ)
    (row col : ℕ) (c : String) (hr : row < height) (hc : col < width) :
    ((row, col), c) ∈ drawCellsFills width height arr ↔
      c = (if bitIsSet (getIndex width row col) arr then ALIVE_COLOR else DEAD_COLOR) := by
  unfold drawCellsFills
  simp only [List.mem_flatMap, List.mem_map, List.mem_range, Prod.mk.injEq]
  constructor
  · rintro ⟨r, hr', c', hc', ⟨rfl, rfl⟩, h⟩
    exact h.symm
  · rintro rfl
    exact ⟨row, hr, col, hc, ⟨rfl, rfl⟩, rfl⟩

/-- C1: for every `row < height` and `col < width`, `drawCells` fills that
cell's rectangle with `ALIVE_COLOR` iff bit `row * width + col` of the
bit-packed cells array is set — tested in byte `floor(n / 8)` against mask
`1 << (n % 8)` — and with `DEAD_COLOR` otherwise; the cell index is
row-major `row * width + col`. -/
theorem drawCells_alive_iff_bit (width height row col : ℕ) (arr : List ℕ)
    (hr : row < height) (hc : col < width) :
    ((((row, col), ALIVE_COLOR) ∈ drawCellsFills width height arr) ↔
      (arr.getD ((row * width + col) / 8) 0).testBit ((row * width + col) % 8)) ∧
    ((((row, col), DEAD_COLOR) ∈ drawCellsFills width height arr) ↔
      ¬ (arr.getD ((row * width + col) / 8) 0).testBit ((row * width + col) % 8)) ∧
    getIndex width row col = row * width + col := by
  have hb := bitIsSet_iff_testBit (row * width + col) arr
  unfold byteOf at hb
  have hg : getIndex width row col = row * width + col := rfl
  refine ⟨?_, ?_, rfl⟩
  · rw [mem_drawCellsFills width height arr row col ALIVE_COLOR hr hc, hg, ← hb]
    cases hbs : bitIsSet (row * width + col) arr <;>
      simp [hbs, ALIVE_COLOR, DEAD_COLOR]
  · rw [mem_drawCellsFills width height arr row col DEAD_COLOR hr hc, hg, ← hb]
    cases hbs : bitIsSet (row * width + col) arr <;>
      simp [hbs, ALIVE_COLOR, DEAD_COLOR]

theorem drawCells_alive_iff_bit_witness :
    (0 < 2 ∧ 1 < 2) ∧
    ((((0, 1), ALIVE_COLOR) ∈ drawCellsFills 2 2 [6]) ↔
      (([6] : List ℕ).getD ((0 * 2 + 1) / 8) 0).testBit ((0 * 2 + 1) % 8)) ∧
    ((((0, 1), DEAD_COLOR) ∈ drawCellsFills 2 2 [6]) ↔
      ¬ (([6] : List ℕ).getD ((0 * 2 + 1) / 8) 0).testBit ((0 * 2 + 1) % 8)) ∧
    getIndex 2 0 1 = 0 * 2 + 1 :=
  ⟨⟨by decide, by decide⟩, drawCells_alive_iff_bit 2 2 0 1 [6] (by decide) (by decide)⟩

/-- C4 fails as stated: for a 3-by-3 grid the constructed buffer view has
`⌊9 / 8⌋ = 1` byte (`ToIndex` truncates the fractional length `9 / 8`),
yet the cell in row 2, column 2 has cell index `8 < 3 * 3` and `bitIsSet`
reads byte `⌊8 / 8⌋ = 1`, which is not strictly within the array. -/
theorem cells_byte_out_of_bounds :
    getIndex 3 2 2 = 8 ∧ (8 : ℕ) < 3 * 3 ∧ cellsLen 3 3 = 1 ∧
    ¬ byteOf (getIndex 3 2 2) < cellsLen 3 3 :=
  ⟨rfl, by decide, rfl, by decide⟩

/-- C4 (amended): whenever `8` divides `width * height` — the byte-aligned
grids for which the bit-packed buffer covers every cell — every cell index
`n < width * height` has its byte index `floor(n / 8)` strictly below the
(`ToIndex`-truncated) length `width * height / 8` of the `Uint8Array` that
`drawCells` constructs, and every index `getIndex row col` tested by
`drawCells` (with `row < height`, `col < width`) is such a cell index, so
no access performed during `drawCells` is out of bounds. -/
theorem drawCells_byte_lt_len (width height n row col : ℕ)
    (hdvd : 8 ∣ width * height)
    (hn : n < width * height) (hr : row < height) (hc : col < width) :
    byteOf n < cellsLen width height ∧
    getIndex width row col < width * height := by
  constructor
  · exact Nat.div_lt_div_of_lt_of_dvd hdvd hn
  · unfold getIndex
    calc row * width + col < row * width + width := by omega
    _ = (row + 1) * width := by ring
    _ ≤ height * width := Nat.mul_le_mul_right width hr
    _ = width * height := Nat.mul_comm _ _

theorem drawCells_byte_lt_len_witness :
    (8 ∣ 2 * 4 ∧ 7 < 2 * 4 ∧ 3 < 4 ∧ 1 < 2) ∧
    (byteOf 7 < cellsLen 2 4 ∧ getIndex 2 3 1 < 2 * 4) :=
  ⟨⟨by decide, by decide, by decide, by decide⟩,
    drawCells_byte_lt_len 2 4 7 3 1 (by decide) (by decide) (by decide) (by decide)⟩

/-- `const row = Math.min(Math.floor(canvasTop / (CELL_SIZE + 1)), height - 1);` -/
def clickRow (canvasTop : ℚ) (height : ℕ) : ℤ :=
  min ⌊canvasTop / ((CELL_SIZE : ℚ) + 1)⌋ ((height : ℤ) - 1)

/-- `const col = Math.min(Math.floor(canvasLeft / (CELL_SIZE + 1)), width - 1);` -/
def clickCol (canvasLeft : ℚ) (width : ℕ) : ℤ :=
  min ⌊canvasLeft / ((CELL_SIZE : ℚ) + 1)⌋ ((width : ℤ) - 1)

/-- C9: the row and column a canvas click passes to `universe.toggle_cell`
are clamped from above by `height - 1` and `width - 1` for every click
coordinate, while no analogous clamp exists below zero: the coordinate
`canvasTop = -6` yields a negative row for every grid height. -/
theorem click_row_col_clamped (width height : ℕ) (canvasTop canvasLeft : ℚ) :
    clickRow canvasTop height ≤ (height : ℤ) - 1 ∧
    clickCol canvasLeft width ≤ (width : ℤ) - 1 ∧
    clickRow (-6) height < 0 := by
  refine ⟨min_le_right _ _, min_le_right _ _, ?_⟩
  unfold clickRow
  have h1 : ⌊(-6 : ℚ) / ((CELL_SIZE : ℚ) + 1)⌋ = -1 := by
    norm_num [CELL_SIZE]
  rw [h1]
  exact lt_of_le_of_lt (min_le_left _ _) (by norm_num)

/-! ## The FPS counter (`const fps = new class { ... }` in `src/www/index.js`) -/

/-- The fields of the `fps` object: `this.frames` and
`this.lastFrameTimeStamp`. -/
structure FpsState where
  frames : List ℚ
  lastFrameTimeStamp : ℚ
deriving DecidableEq

/-- The statistics `fps.render()` computes and displays: `fps` (the latest
reading), `mean`, `min` and `max`.  The JavaScript sentinels `Infinity` and
`-Infinity` that seed the min/max accumulators are modelled by `⊤ : WithTop ℚ`
and `⊥ : WithBot ℚ`. -/
structure FpsStats where
  latest : ℚ
  mean : ℚ
  min : WithTop ℚ
  max : WithBot ℚ

/-- `const fps = 1 / delta * 1000;` where
`delta = now - this.lastFrameTimeStamp`. -/
def fpsLatest (st : FpsState) (now : ℚ) : ℚ :=
  1 / (now - st.lastFrameTimeStamp) * 1000

/-- `this.frames.push(fps); if (this.frames.length > 100) this.frames.shift();` -/
def newFrames (st : FpsState) (now : ℚ) : List ℚ :=
  if 100 < (st.frames ++ [fpsLatest st now]).length then
    (st.frames ++ [fpsLatest st now]).tail
  else
    st.frames ++ [fpsLatest st now]

/-- One iteration of the statistics loop:
`sum += frames[i]; min = Math.min(frames[i], min); max = Math.max(frames[i], max);` -/
def fpsStep (acc : ℚ × WithTop ℚ × WithBot ℚ) (v : ℚ) : ℚ × WithTop ℚ × WithBot ℚ :=
  (acc.1 + v, Min.min (v : WithTop ℚ) acc.2.1, Max.max (v : WithBot ℚ) acc.2.2)

/-- `fps.render()`: pushes the latest reading, keeps only the latest 100
timings, folds sum/min/max over the stored timings (starting from
`0`, `Infinity`, `-Infinity`), and computes `mean = sum / frames.length`.
The `Math.round` and string formatting of the displayed text are abstracted:
the computed statistics are returned and the DOM write is the `setFpsText`
trace operation emitted by the caller. -/
def fpsRender (st : FpsState) (now : ℚ) : FpsState × FpsStats :=
  let frames2 := newFrames st now
  let acc := frames2.foldl fpsStep ((0 : ℚ), (⊤ : WithTop ℚ), (⊥ : WithBot ℚ))
  (⟨frames2, now⟩, ⟨fpsLatest st now, acc.1 / frames2.length, acc.2.1, acc.2.2⟩)

/-! ## The event-driven part as a state machine -/

/-- Externally visible operations performed by the script's handlers:
engine calls (`universe.tick()`, `universe.toggle_cell(row, col)`),
drawing calls (`drawGrid()`, `drawCells()` — the latter includes its
`universe.cells()` read), animation-frame requests, and DOM text updates
(the play-pause button label and the FPS display). -/
inductive Op where
  | uTick : Op
  | uToggle : ℤ → ℤ → Op
  | drawGrid : Op
  | drawCells : Op
  | reqFrame : ℕ → Op
  | setButton : Bool → Op
  | setFpsText : Op
deriving DecidableEq

/-- Events the script reacts to: a pending animation-frame callback firing,
a play-pause button click, and a canvas click (carrying the
canvas-relative, scale-corrected `canvasTop`/`canvasLeft` coordinates).
Frame and button events carry the `performance.now()` timestamp the FPS
counter would read. -/
inductive Event where
  | frame : ℚ → Event
  | ppClick : ℚ → Event
  | cClick : ℚ → ℚ → Event

/-- State of `src/www/index.js`: the `animationId` variable, the browser's
pending animation-frame callback (if any) and the next callback id it will
hand out, whether the button shows the pause glyph, and the FPS counter. -/
structure StateA where
  animationId : Option ℕ
  pending : Option ℕ
  nextId : ℕ
  buttonPause : Bool
  fps : FpsState
deriving DecidableEq

/-- `const isPaused = () => animationId === null;` -/
def isPausedA (s : StateA) : Bool :=
  s.animationId.isNone

/-- `renderLoop`: `fps.render(); universe.tick(); drawGrid(); drawCells();
animationId = requestAnimationFrame(renderLoop);` -/
def renderLoopA (s : StateA) (now : ℚ) : StateA × List Op :=
  let fr := fpsRender s.fps now
  let id := s.nextId
  ({ s with fps := fr.1, pending := some id, nextId := id + 1, animationId := some id },
   [Op.setFpsText, Op.uTick, Op.drawGrid, Op.drawCells, Op.reqFrame id])

/-- `play`: set the button text to the pause glyph, then run `renderLoop()`. -/
def playA (s : StateA) (now : ℚ) : StateA × List Op :=
  let r := renderLoopA { s with buttonPause := true } now
  (r.1, Op.setButton true :: r.2)

/-- `cancelAnimationFrame(id)`: the pending callback is dropped when `id`
names it; passing `null` (or a stale id) does nothing. -/
def cancelPending (pending i : Option ℕ) : Option ℕ :=
  match i with
  | none => pending
  | some id => if pending = some id then none else pending

/-- `pause`: set the button text to the play glyph, then
`cancelAnimationFrame(animationId); animationId = null;` -/
def pauseA (s : StateA) : StateA × List Op :=
  ({ s with buttonPause := false,
            pending := cancelPending s.pending s.animationId,
            animationId := none },
   [Op.setButton false])

/-- One event-handler execution of `src/www/index.js`.  A `frame` event
runs `renderLoop` only when a callback is actually pending (a cancelled
callback never fires); the play-pause listener branches on `isPaused()`;
the canvas listener toggles the clamped cell and redraws. -/
def stepA (width height : ℕ) (s : StateA) : Event → StateA × List Op
  | Event.frame now =>
      match s.pending with
      | some _ => renderLoopA { s with pending := none } now
      | none => (s, [])
  | Event.ppClick now => if isPausedA s then playA s now else pauseA s
  | Event.cClick top left =>
      (s, [Op.uToggle (clickRow top height) (clickCol left width),
           Op.drawGrid, Op.drawCells])

/-- Run a sequence of events, concatenating the operation traces. -/
def runA (width height : ℕ) (s : StateA) : List Event → StateA × List Op
  | [] => (s, [])
  | e :: es =>
      let r := stepA width height s e
      let r2 := runA width height r.1 es
      (r2.1, r.2 ++ r2.2)

/-- Script start-up of `src/www/index.js`: `animationId = null`, the FPS
counter is created with an empty ring buffer and `performance.now()` (`t0`),
then `drawGrid(); drawCells(); play();` (the `play()` call reads
`performance.now()` as `now0`). -/
def initA (t0 now0 : ℚ) : StateA × List Op :=
  let s0 : StateA := ⟨none, none, 0, false, ⟨[], t0⟩⟩
  let p := playA s0 now0
  (p.1, Op.drawGrid :: Op.drawCells :: p.2)

/-! ## The same script without the FPS counter (`src/unnamed/part_000`) -/

/-- State of `src/unnamed/part_000`: as `StateA` but with no FPS counter. -/
structure StateB where
  animationId : Option ℕ
  pending : Option ℕ
  nextId : ℕ
  buttonPause : Bool
deriving DecidableEq

/-- `isPaused` of the FPS-free variant. -/
def isPausedB (s : StateB) : Bool :=
  s.animationId.isNone

/-- `renderLoop` of the FPS-free variant: `universe.tick(); drawGrid();
drawCells(); animationId = requestAnimationFrame(renderLoop);` -/
def renderLoopB (s : StateB) : StateB × List Op :=
  let id := s.nextId
  ({ s with pending := some id, nextId := id + 1, animationId := some id },
   [Op.uTick, Op.drawGrid, Op.drawCells, Op.reqFrame id])

/-- `play` of the FPS-free variant. -/
def playB (s : StateB) : StateB × List Op :=
  let r := renderLoopB { s with buttonPause := true }
  (r.1, Op.setButton true :: r.2)

/-- `pause` of the FPS-free variant. -/
def pauseB (s : StateB) : StateB × List Op :=
  ({ s with buttonPause := false,
            pending := cancelPending s.pending s.animationId,
            animationId := none },
   [Op.setButton false])

/-- One event-handler execution of `src/unnamed/part_000`. -/
def stepB (width height : ℕ) (s : StateB) : Event → StateB × List Op
  | Event.frame _ =>
      match s.pending with
      | some _ => renderLoopB { s with pending := none }
      | none => (s, [])
  | Event.ppClick _ => if isPausedB s then playB s else pauseB s
  | Event.cClick top left =>
      (s, [Op.uToggle (clickRow top height) (clickCol left width),
           Op.drawGrid, Op.drawCells])

/-- Run a sequence of events through the FPS-free variant. -/
def runB (width height : ℕ) (s : StateB) : List Event → StateB × List Op
  | [] => (s, [])
  | e :: es =>
      let r := stepB width height s e
      let r2 := runB width height r.1 es
      (r2.1, r.2 ++ r2.2)

/-- Script start-up of `src/unnamed/part_000`. -/
def initB : StateB × List Op :=
  let p := playB ⟨none, none, 0, false⟩
  (p.1, Op.drawGrid :: Op.drawCells :: p.2)

/-- Forget the FPS counter component of an `src/www/index.js` state. -/
def eraseA (s : StateA) : StateB :=
  ⟨s.animationId, s.pending, s.nextId, s.buttonPause⟩

/-- Is an operation part of the FPS display (the only effect unique to
`src/www/index.js`)? -/
def isFpsOp : Op → Bool
  | Op.setFpsText => true
  | _ => false

/-- A trace with the FPS display updates removed. -/
def nonFpsTrace (t : List Op) : List Op :=
  t.filter fun o => !(isFpsOp o)

/-- C5: every canvas click emits exactly one `toggle_cell` call — with
`row = min(floor(canvasTop / (CELL_SIZE + 1)), height - 1)` and
`col = min(floor(canvasLeft / (CELL_SIZE + 1)), width - 1)` — followed by
exactly one `drawGrid` and then exactly one `drawCells`. -/
theorem canvas_click_trace (width height : ℕ) (s : StateA) (top left : ℚ) :
    (stepA width height s (Event.cClick top left)).2 =
      [Op.uToggle (min ⌊top / ((CELL_SIZE : ℚ) + 1)⌋ ((height : ℤ) - 1))
                  (min ⌊left / ((CELL_SIZE : ℚ) + 1)⌋ ((width : ℤ) - 1)),
       Op.drawGrid, Op.drawCells] ∧
    (stepA width height s (Event.cClick top left)).2.countP
      (fun o => match o with | Op.uToggle _ _ => true | _ => false) = 1 ∧
    (stepA width height s (Event.cClick top left)).2.count Op.drawGrid = 1 ∧
    (stepA width height s (Event.cClick top left)).2.count Op.drawCells = 1 := by
  refine ⟨rfl, ?_, ?_, ?_⟩ <;>
    simp [stepA, List.countP_cons, List.count_cons, clickRow, clickCol]

/-- C6: every invocation of `renderLoop` performs one `universe.tick()`,
then one `drawGrid()`, then one `drawCells()`, in that order, and then
requests exactly one next animation frame whose id is stored in
`animationId` (the FPS display update precedes all of them). -/
theorem renderLoop_trace (s : StateA) (now : ℚ) :
    (renderLoopA s now).2 =
      [Op.setFpsText, Op.uTick, Op.drawGrid, Op.drawCells, Op.reqFrame s.nextId] ∧
    (renderLoopA s now).1.animationId = some s.nextId ∧
    (renderLoopA s now).1.pending = some s.nextId ∧
    (renderLoopA s now).2.count Op.uTick = 1 ∧
    (renderLoopA s now).2.count Op.drawGrid = 1 ∧
    (renderLoopA s now).2.count Op.drawCells = 1 := by
  refine ⟨rfl, rfl, rfl, ?_, ?_, ?_⟩ <;> simp [renderLoopA, List.count_cons]

/-- C7: the play-pause button is a two-state toggle on `isPaused()`: a
click while paused runs `play()` and leaves the game unpaused, a click
while unpaused runs `pause()` and leaves it paused, and two consecutive
clicks restore the original value of `isPaused()`. -/
theorem playPause_toggle (width height : ℕ) (s : StateA) (now1 now2 : ℚ) :
    (isPausedA s = true →
      stepA width height s (Event.ppClick now1) = playA s now1 ∧
      isPausedA (stepA width height s (Event.ppClick now1)).1 = false) ∧
    (isPausedA s = false →
      stepA width height s (Event.ppClick now1) = pauseA s ∧
      isPausedA (stepA width height s (Event.ppClick now1)).1 = true) ∧
    isPausedA (stepA width height
        (stepA width height s (Event.ppClick now1)).1 (Event.ppClick now2)).1 =
      isPausedA s := by
  cases ha : s.animationId <;>
    simp [stepA, playA, pauseA, renderLoopA, isPausedA, ha]

theorem playPause_toggle_witness :
    isPausedA (⟨none, none, 0, false, ⟨[], 0⟩⟩ : StateA) = true ∧
    (stepA 1 1 (⟨none, none, 0, false, ⟨[], 0⟩⟩ : StateA) (Event.ppClick 0) =
        playA (⟨none, none, 0, false, ⟨[], 0⟩⟩ : StateA) 0 ∧
      isPausedA (stepA 1 1 (⟨none, none, 0, false, ⟨[], 0⟩⟩ : StateA)
          (Event.ppClick 0)).1 = false) :=
  ⟨rfl, (playPause_toggle 1 1 ⟨none, none, 0, false, ⟨[], 0⟩⟩ 0 0).1 rfl⟩

theorem stepA_id_eq_pending (width height : ℕ) (s : StateA) (e : Event)
    (h : s.animationId = s.pending) :
    (stepA width height s e).1.animationId = (stepA width height s e).1.pending := by
  cases e with
  | frame now => cases hp : s.pending <;> simp [stepA, hp, h, renderLoopA]
  | ppClick now =>
      cases ha : s.animationId with
      | none => simp [stepA, isPausedA, ha, playA, renderLoopA]
      | some id =>
          rw [ha] at h
          simp [stepA, isPausedA, ha, pauseA, cancelPending, ← h]
  | cClick top left => exact h

theorem runA_id_eq_pending (width height : ℕ) (evs : List Event) (s : StateA)
    (h : s.animationId = s.pending) :
    (runA width height s evs).1.animationId = (runA width height s evs).1.pending := by
  induction evs generalizing s with
  | nil => exact h
  | cons e es ih =>
      simp only [runA]
      exact ih _ (stepA_id_eq_pending width height s e h)

/-- C3: between handler executions `animationId` is `null` exactly when no
animation-frame callback is pending — in every state reachable from script
start-up, `animationId` coincides with the browser's pending-callback
handle; `isPaused()` answers `animationId === null`; a completed `pause()`
leaves `animationId` null; and a completed `renderLoop` leaves
`animationId` holding the freshly requested (non-null) frame id. -/
theorem animationId_null_iff_not_pending (width height : ℕ) (t0 now0 now : ℚ)
    (evs : List Event) (s : StateA) :
    (isPausedA s = true ↔ s.animationId = none) ∧
    ((runA width height (initA t0 now0).1 evs).1.animationId =
       (runA width height (initA t0 now0).1 evs).1.pending) ∧
    ((runA width height (initA t0 now0).1 evs).1.animationId = none ↔
       (runA width height (initA t0 now0).1 evs).1.pending = none) ∧
    (pauseA s).1.animationId = none ∧
    (renderLoopA s now).1.animationId = some s.nextId ∧
    (renderLoopA s now).1.pending = some s.nextId := by
  have hrun := runA_id_eq_pending width height evs (initA t0 now0).1 rfl
  refine ⟨?_, hrun, by rw [hrun], rfl, rfl, rfl⟩
  simp [isPausedA, Option.isNone_iff_eq_none]

/-- C2 fails as stated: after `pause()` (state reachable by script start-up
followed by one play-pause click), a canvas click still performs `drawGrid`
and `drawCells` — the canvas listener redraws unconditionally. -/
theorem pause_then_click_draws :
    isPausedA (runA 64 64 (initA 0 1).1 [Event.ppClick 2]).1 = true ∧
    Op.drawGrid ∈ (stepA 64 64 (runA 64 64 (initA 0 1).1 [Event.ppClick 2]).1
        (Event.cClick 3 4)).2 ∧
    Op.drawCells ∈ (stepA 64 64 (runA 64 64 (initA 0 1).1 [Event.ppClick 2]).1
        (Event.cClick 3 4)).2 := by
  refine ⟨?_, ?_, ?_⟩ <;>
    simp [runA, stepA, initA, playA, pauseA, renderLoopA, isPausedA]

/-- C2 (amended): after `pause()` cancels the pending callback (leaving
`animationId` and the pending handle null) and until `play()` is next
invoked, no drawing occurs for every sequence of animation-frame callback
events — indeed no operation at all is performed and the state does not
change.  (Canvas clicks are excluded: they redraw even while paused, see
the counterexample; and a play-pause click while paused is precisely the
next `play()` invocation, ending the interval.) -/
theorem paused_frames_no_drawing (width height : ℕ) (s : StateA) (evs : List Event)
    (_hid : s.animationId = none) (hpend : s.pending = none)
    (hevs : ∀ e ∈ evs, ∃ now, e = Event.frame now) :
    (runA width height s evs).2 = [] ∧
    Op.drawGrid ∉ (runA width height s evs).2 ∧
    Op.drawCells ∉ (runA width height s evs).2 ∧
    (runA width height s evs).1 = s := by
  have key : (runA width height s evs).2 = [] ∧ (runA width height s evs).1 = s := by
    clear _hid
    induction evs with
    | nil => exact ⟨rfl, rfl⟩
    | cons e es ih =>
        obtain ⟨now, he⟩ := hevs e (List.mem_cons_self e es)
        subst he
        have hs : stepA width height s (Event.frame now) = (s, []) := by
          simp [stepA, hpend]
        have hih := ih fun e he => hevs e (List.mem_cons_of_mem _ he)
        simp only [runA, hs]
        exact ⟨by simp [hih.1], by simp [hih.2]⟩
  refine ⟨key.1, ?_, ?_, key.2⟩ <;> simp [key.1]

theorem paused_frames_no_drawing_witness :
    ((⟨none, none, 3, false, ⟨[], 0⟩⟩ : StateA).animationId = none ∧
     (⟨none, none, 3, false, ⟨[], 0⟩⟩ : StateA).pending = none ∧
     (∀ e ∈ [Event.frame 1], ∃ now, e = Event.frame now)) ∧
    ((runA 2 2 ⟨none, none, 3, false, ⟨[], 0⟩⟩ [Event.frame 1]).2 = [] ∧
     Op.drawGrid ∉ (runA 2 2 (⟨none, none, 3, false, ⟨[], 0⟩⟩ : StateA) [Event.frame 1]).2 ∧
     Op.drawCells ∉ (runA 2 2 (⟨none, none, 3, false, ⟨[], 0⟩⟩ : StateA) [Event.frame 1]).2 ∧
     (runA 2 2 ⟨none, none, 3, false, ⟨[], 0⟩⟩ [Event.frame 1]).1 =
       (⟨none, none, 3, false, ⟨[], 0⟩⟩ : StateA)) :=
  ⟨⟨rfl, rfl, fun e he => ⟨1, by rw [List.mem_singleton] at he; exact he⟩⟩,
    paused_frames_no_drawing 2 2 ⟨none, none, 3, false, ⟨[], 0⟩⟩ [Event.frame 1]
      rfl rfl (fun e he => ⟨1, by rw [List.mem_singleton] at he; exact he⟩)⟩

theorem nonFpsTrace_append (t t' : List Op) :
    nonFpsTrace (t ++ t') = nonFpsTrace t ++ nonFpsTrace t' :=
  List.filter_append _ _

theorem stepAB (width height : ℕ) (s : StateA) (e : Event) :
    eraseA (stepA width height s e).1 = (stepB width height (eraseA s) e).1 ∧
    nonFpsTrace (stepA width height s e).2 = (stepB width height (eraseA s) e).2 := by
  cases e with
  | frame now =>
      cases hpd : s.pending <;>
        simp [stepA, stepB, hpd, renderLoopA, renderLoopB, eraseA,
          nonFpsTrace, isFpsOp]
  | ppClick now =>
      cases ha : s.animationId <;>
        simp [stepA, stepB, isPausedA, isPausedB, ha, eraseA, playA, playB,
          pauseA, pauseB, renderLoopA, renderLoopB, nonFpsTrace, isFpsOp]
  | cClick top left =>
      simp [stepA, stepB, eraseA, nonFpsTrace, isFpsOp]

theorem runAB (width height : ℕ) (evs : List Event) (s : StateA) (t : StateB)
    (h : eraseA s = t) :
    eraseA (runA width height s evs).1 = (runB width height t evs).1 ∧
    nonFpsTrace (runA width height s evs).2 = (runB width height t evs).2 := by
  induction evs generalizing s t with
  | nil => exact ⟨h, rfl⟩
  | cons e es ih =>
      subst h
      obtain ⟨h1, h2⟩ := stepAB width height s e
      obtain ⟨h3, h4⟩ := ih (stepA width height s e).1 _ h1
      refine ⟨h3, ?_⟩
      simp only [runA, runB]
      rw [nonFpsTrace_append, h2, h4]

/-- C10: `src/www/index.js` and `src/unnamed/part_000` are behaviourally
equivalent up to the FPS display: erasing the FPS counter from the state,
they start in the same state, and for every event sequence they reach the
same state and perform the same operation sequence (universe calls, grid
and cell drawing, frame requests, button updates) once the FPS text
updates — the only effect unique to the FPS version — are filtered out. -/
theorem fps_version_refinement (width height : ℕ) (t0 now0 : ℚ) (evs : List Event) :
    eraseA (initA t0 now0).1 = initB.1 ∧
    nonFpsTrace (initA t0 now0).2 = initB.2 ∧
    eraseA (runA width height (initA t0 now0).1 evs).1 =
      (runB width height initB.1 evs).1 ∧
    nonFpsTrace (runA width height (initA t0 now0).1 evs).2 =
      (runB width height initB.1 evs).2 := by
  have h := runAB width height evs (initA t0 now0).1 initB.1 rfl
  exact ⟨rfl, rfl, h.1, h.2⟩

theorem foldl_fpsStep (l : List ℚ) (a : ℚ × WithTop ℚ × WithBot ℚ) :
    l.foldl fpsStep a =
      (a.1 + l.sum,
       l.foldl (fun (m : WithTop ℚ) (v : ℚ) => Min.min (v : WithTop ℚ) m) a.2.1,
       l.foldl (fun (m : WithBot ℚ) (v : ℚ) => Max.max (v : WithBot ℚ) m) a.2.2) := by
  induction l generalizing a with
  | nil => simp
  | cons v t ih => simp [fpsStep, ih, add_assoc]

theorem foldl_min_coe (l : List ℚ) (a : ℚ) :
    ∃ q : ℚ, l.foldl (fun (m : WithTop ℚ) (v : ℚ) => Min.min (v : WithTop ℚ) m) (a : WithTop ℚ) = (q : WithTop ℚ) ∧
      (q = a ∨ q ∈ l) ∧ q ≤ a ∧ ∀ v ∈ l, q ≤ v := by
  induction l generalizing a with
  | nil => exact ⟨a, rfl, Or.inl rfl, le_refl a, by simp⟩
  | cons v t ih =>
      obtain ⟨q, h1, h2, h3, h4⟩ := ih (Min.min v a)
      have hcast : Min.min (v : WithTop ℚ) (a : WithTop ℚ) = ((Min.min v a : ℚ) : WithTop ℚ) :=
        (WithTop.coe_min v a).symm
      refine ⟨q, ?_, ?_, le_trans h3 (min_le_right v a), ?_⟩
      · rw [List.foldl_cons, hcast]
        exact h1
      · rcases h2 with hq | hq
        · rcases min_choice v a with hm | hm
          · exact Or.inr (by rw [hq, hm]; exact List.mem_cons_self v t)
          · exact Or.inl (hq.trans hm)
        · exact Or.inr (List.mem_cons_of_mem _ hq)
      · intro w hw
        rcases List.mem_cons.mp hw with rfl | hw
        · exact le_trans h3 (min_le_left w a)
        · exact h4 w hw

theorem foldl_min_top (l : List ℚ) (hl : l ≠ []) :
    ∃ q : ℚ, l.foldl (fun (m : WithTop ℚ) (v : ℚ) => Min.min (v : WithTop ℚ) m) ⊤ = (q : WithTop ℚ) ∧
      q ∈ l ∧ ∀ v ∈ l, q ≤ v := by
  cases l with
  | nil => exact absurd rfl hl
  | cons v t =>
      obtain ⟨q, h1, h2, h3, h4⟩ := foldl_min_coe t v
      have h0 : Min.min (v : WithTop ℚ) ⊤ = (v : WithTop ℚ) := min_eq_left le_top
      refine ⟨q, ?_, ?_, ?_⟩
      · rw [List.foldl_cons, h0]
        exact h1
      · rcases h2 with hq | hq
        · exact hq ▸ List.mem_cons_self v t
        · exact List.mem_cons_of_mem _ hq
      · intro w hw
        rcases List.mem_cons.mp hw with rfl | hw
        · exact h3
        · exact h4 w hw

theorem foldl_max_coe (l : List ℚ) (a : ℚ) :
    ∃ q : ℚ, l.foldl (fun (m : WithBot ℚ) (v : ℚ) => Max.max (v : WithBot ℚ) m) (a : WithBot ℚ) = (q : WithBot ℚ) ∧
      (q = a ∨ q ∈ l) ∧ a ≤ q ∧ ∀ v ∈ l, v ≤ q := by
  induction l generalizing a with
  | nil => exact ⟨a, rfl, Or.inl rfl, le_refl a, by simp⟩
  | cons v t ih =>
      obtain ⟨q, h1, h2, h3, h4⟩ := ih (Max.max v a)
      have hcast : Max.max (v : WithBot ℚ) (a : WithBot ℚ) = ((Max.max v a : ℚ) : WithBot ℚ) :=
        (WithBot.coe_max v a).symm
      refine ⟨q, ?_, ?_, le_trans (le_max_right v a) h3, ?_⟩
      · rw [List.foldl_cons, hcast]
        exact h1
      · rcases h2 with hq | hq
        · rcases max_choice v a with hm | hm
          · exact Or.inr (by rw [hq, hm]; exact List.mem_cons_self v t)
          · exact Or.inl (hq.trans hm)
        · exact Or.inr (List.mem_cons_of_mem _ hq)
      · intro w hw
        rcases List.mem_cons.mp hw with rfl | hw
        · exact le_trans (le_max_left w a) h3
        · exact h4 w hw

theorem foldl_max_bot (l : List ℚ) (hl : l ≠ []) :
    ∃ q : ℚ, l.foldl (fun (m : WithBot ℚ) (v : ℚ) => Max.max (v : WithBot ℚ) m) ⊥ = (q : WithBot ℚ) ∧
      q ∈ l ∧ ∀ v ∈ l, v ≤ q := by
  cases l with
  | nil => exact absurd rfl hl
  | cons v t =>
      obtain ⟨q, h1, h2, h3, h4⟩ := foldl_max_coe t v
      have h0 : Max.max (v : WithBot ℚ) ⊥ = (v : WithBot ℚ) := max_eq_left bot_le
      refine ⟨q, ?_, ?_, ?_⟩
      · rw [List.foldl_cons, h0]
        exact h1
      · rcases h2 with hq | hq
        · exact hq ▸ List.mem_cons_self v t
        · exact List.mem_cons_of_mem _ hq
      · intro w hw
        rcases List.mem_cons.mp hw with rfl | hw
        · exact h3
        · exact h4 w hw

theorem newFrames_spec (st : FpsState) (now : ℚ) (h : st.frames.length ≤ 100) :
    (newFrames st now).length ≤ 100 ∧
    (st.frames.length < 100 → newFrames st now = st.frames ++ [fpsLatest st now]) ∧
    (st.frames.length = 100 → newFrames st now = st.frames.tail ++ [fpsLatest st now]) ∧
    newFrames st now ≠ [] := by
  unfold newFrames
  split_ifs with h100
  · simp only [List.length_append, List.length_singleton] at h100
    have hlen : st.frames.length = 100 := by omega
    have htail : (st.frames ++ [fpsLatest st now]).tail
        = st.frames.tail ++ [fpsLatest st now] := by
      cases hf : st.frames with
      | nil => rw [hf] at hlen; simp at hlen
      | cons a l => rfl
    refine ⟨?_, fun hlt => absurd hlen (by omega), fun _ => htail, ?_⟩
    · rw [htail]
      simp only [List.length_append, List.length_tail, List.length_singleton, hlen]
      omega
    · rw [htail]
      simp
  · simp only [List.length_append, List.length_singleton] at h100
    refine ⟨?_, fun _ => rfl, fun heq => absurd heq (by omega), by simp⟩
    simp only [List.length_append, List.length_singleton]
    omega

/-- C8: after every `fps.render()` the timing buffer holds at most 100
entries — when a 101st reading is pushed the oldest is discarded — and the
displayed minimum, maximum and mean are computed over exactly the entries
currently stored: the minimum (resp. maximum) is an entry of the stored
buffer below (resp. above) every stored entry, and the mean times the
number of stored entries equals their sum. -/
theorem fps_render_spec (st : FpsState) (now : ℚ) (h : st.frames.length ≤ 100) :
    (fpsRender st now).1.frames.length ≤ 100 ∧
    (st.frames.length < 100 →
      (fpsRender st now).1.frames = st.frames ++ [(fpsRender st now).2.latest]) ∧
    (st.frames.length = 100 →
      (fpsRender st now).1.frames = st.frames.tail ++ [(fpsRender st now).2.latest]) ∧
    (fpsRender st now).2.mean * (fpsRender st now).1.frames.length =
      (fpsRender st now).1.frames.sum ∧
    (∃ q : ℚ, (fpsRender st now).2.min = (q : WithTop ℚ) ∧
      q ∈ (fpsRender st now).1.frames ∧ ∀ v ∈ (fpsRender st now).1.frames, q ≤ v) ∧
    (∃ q : ℚ, (fpsRender st now).2.max = (q : WithBot ℚ) ∧
      q ∈ (fpsRender st now).1.frames ∧ ∀ v ∈ (fpsRender st now).1.frames, v ≤ q) := by
  obtain ⟨hlen, hlt, heq, hne⟩ := newFrames_spec st now h
  have hfr : (fpsRender st now).1.frames = newFrames st now := rfl
  have hlat : (fpsRender st now).2.latest = fpsLatest st now := rfl
  have hmean : (fpsRender st now).2.mean
      = (newFrames st now).sum / (newFrames st now).length := by
    simp [fpsRender, foldl_fpsStep]
  have hmin : (fpsRender st now).2.min =
      (newFrames st now).foldl
        (fun (m : WithTop ℚ) (v : ℚ) => Min.min (v : WithTop ℚ) m) ⊤ := by
    simp [fpsRender, foldl_fpsStep]
  have hmax : (fpsRender st now).2.max =
      (newFrames st now).foldl
        (fun (m : WithBot ℚ) (v : ℚ) => Max.max (v : WithBot ℚ) m) ⊥ := by
    simp [fpsRender, foldl_fpsStep]
  have hlen0 : ((newFrames st now).length : ℚ) ≠ 0 := by
    have hp : 0 < (newFrames st now).length := List.length_pos.mpr hne
    exact_mod_cast Nat.pos_iff_ne_zero.mp hp
  refine ⟨hfr ▸ hlen, ?_, ?_, ?_, ?_, ?_⟩
  · intro hc
    rw [hfr, hlat]
    exact hlt hc
  · intro hc
    rw [hfr, hlat]
    exact heq hc
  · rw [hfr, hmean]
    exact div_mul_cancel₀ _ hlen0
  · obtain ⟨q, h1, h2, h3⟩ := foldl_min_top (newFrames st now) hne
    exact ⟨q, hmin.trans h1, hfr ▸ h2, hfr ▸ h3⟩
  · obtain ⟨q, h1, h2, h3⟩ := foldl_max_bot (newFrames st now) hne
    exact ⟨q, hmax.trans h1, hfr ▸ h2, hfr ▸ h3⟩

theorem fps_render_spec_witness :
    (⟨[], 0⟩ : FpsState).frames.length ≤ 100 ∧
    ((fpsRender ⟨[], 0⟩ 1).1.frames.length ≤ 100 ∧
     ((⟨[], 0⟩ : FpsState).frames.length < 100 →
       (fpsRender ⟨[], 0⟩ 1).1.frames =
         (⟨[], 0⟩ : FpsState).frames ++ [(fpsRender ⟨[], 0⟩ 1).2.latest]) ∧
     ((⟨[], 0⟩ : FpsState).frames.length = 100 →
       (fpsRender ⟨[], 0⟩ 1).1.frames =
         (⟨[], 0⟩ : FpsState).frames.tail ++ [(fpsRender ⟨[], 0⟩ 1).2.latest]) ∧
     (fpsRender ⟨[], 0⟩ 1).2.mean * (fpsRender ⟨[], 0⟩ 1).1.frames.length =
       (fpsRender ⟨[], 0⟩ 1).1.frames.sum ∧
     (∃ q : ℚ, (fpsRender ⟨[], 0⟩ 1).2.min = (q : WithTop ℚ) ∧
       q ∈ (fpsRender ⟨[], 0⟩ 1).1.frames ∧
       ∀ v ∈ (fpsRender ⟨[], 0⟩ 1).1.frames, q ≤ v) ∧
     (∃ q : ℚ, (fpsRender ⟨[], 0⟩ 1).2.max = (q : WithBot ℚ) ∧
       q ∈ (fpsRender ⟨[], 0⟩ 1).1.frames ∧
       ∀ v ∈ (fpsRender ⟨[], 0⟩ 1).1.frames, v ≤ q)) :=
  ⟨by decide, fps_render_spec ⟨[], 0⟩ 1 (by decide)⟩

end WasmGol
